import Mathlib

/-!
Verification of the Xero integration subsystem of the Offlode backend.

The development shallowly embeds the Python services:
  * `app/services/exclusion/engine.py`   (`apply_exclusion_rules`)
  * `app/models/exclusion_rule.py`       (`ExclusionRule.matches`)
  * `app/services/xero/transaction_sync.py` (`upsert_xero_transactions`)
  * `app/services/xero/token_crypto.py`  (`encrypt_token` / `decrypt_token`)
  * `app/services/xero/token_manager.py` (`get_valid_access_token`)

Database rows become Lean structures, the transactions table becomes a
`List Transaction` in row order, SQLAlchemy's `first()` becomes
`List.find?`, and in-place ORM mutation becomes functional record update
of the first matching row.  Python's `re.search` (an external library)
is a parameter `re : String → String → Bool` of every definition that
evaluates a regex-typed rule; the `cryptography.fernet` library is a
parameter `Fernet` with byte strings modelled as `List Char`.
-/

/-- Python truthiness of an optional string: `None` and `""` are falsy. -/
def truthy : Option String → Bool
  | none => false
  | some s => !(s = "")

/-- Python `a or b` on optional strings: returns `a` when truthy, else `b`. -/
def strOr (a b : Option String) : Option String :=
  if truthy a then a else b

/-- Python `pat in hay` on character lists (substring test). -/
def listContains (pat : List Char) : List Char → Bool
  | [] => pat.isEmpty
  | c :: rest => pat.isPrefixOf (c :: rest) || listContains pat rest

/-- Python `pat in hay` on strings. -/
def pyIn (pat hay : String) : Bool :=
  listContains pat.toList hay.toList

/-- Python `s.lower()` (character-wise lowercasing). -/
def pyLower (s : String) : String :=
  String.mk (s.data.map Char.toLower)

/-- Python `s.startswith(pre)`. -/
def pyStartsWith (s pre : String) : Bool :=
  pre.data.isPrefixOf s.data

/-- Python `s.endswith(suf)`. -/
def pyEndsWith (s suf : String) : Bool :=
  suf.data.isSuffixOf s.data

/-- Python `rule.reason or "Auto-excluded"`: a `None` or empty reason falls
back to the default. -/
def reasonOrDefault (r : Option String) : String :=
  match r with
  | none => "Auto-excluded"
  | some s => if s = "" then "Auto-excluded" else s

/-- A row of `exclusion_rules` (`app/models/exclusion_rule.py`), with the
columns the engine reads. -/
structure ExclusionRule where
  organization_id : String
  rule_type : String
  pattern : String
  match_type : String
  enabled : Bool
  reason : Option String
deriving DecidableEq

/-- `ExclusionRule.is_active` (property in `exclusion_rule.py`). -/
def ExclusionRule.is_active (r : ExclusionRule) : Bool := r.enabled

/-- `ExclusionRule.matches(value)` from `exclusion_rule.py`.  `value` may be
`None`; a falsy value never matches, a disabled rule never matches.  The
match types `contains`/`equals`/`starts_with`/`ends_with` compare
lowercased strings; `regex` delegates to the external `re.search`
(modelled by the parameter `re`, which already absorbs `re.error` into
`false`); any other `match_type` returns `False`. -/
def ExclusionRule.matches (re : String → String → Bool) (rule : ExclusionRule)
    (value : Option String) : Bool :=
  match value with
  | none => false
  | some v =>
    if v = "" then false
    else if !rule.enabled then false
    else
      let value_lower := pyLower v
      let pattern_lower := pyLower rule.pattern
      if rule.match_type = "contains" then pyIn pattern_lower value_lower
      else if rule.match_type = "equals" then value_lower = pattern_lower
      else if rule.match_type = "starts_with" then pyStartsWith value_lower pattern_lower
      else if rule.match_type = "ends_with" then pyEndsWith value_lower pattern_lower
      else if rule.match_type = "regex" then re rule.pattern v
      else false

/-- A row of `transactions` (`app/models/transaction.py`), with the columns
the sync service and the exclusion engine touch.  Dates and amounts are
opaque to both, so they are embedded as optional integers; timestamps are
integers. -/
structure Transaction where
  id : Nat
  organization_id : String
  client_id : String
  xero_transaction_id : String
  xero_type : Option String
  date : Option Int
  amount : Option Int
  description : Option String
  supplier_name : Option String
  document_required : Bool
  document_received : Bool
  excluded : Bool
  exclusion_reason : Option String
  created_at : Int
  updated_at : Int
deriving DecidableEq

/-- Field selection of `apply_exclusion_rules`: `supplier_name` rules read
the supplier name, `description` rules read the description, any other
`rule_type` selects no field (the rule is skipped). -/
def ruleValue (rule : ExclusionRule) (t : Transaction) : Option (Option String) :=
  if rule.rule_type = "supplier_name" then some t.supplier_name
  else if rule.rule_type = "description" then some t.description
  else none

/-- The mutation performed on a first matching rule: set `excluded`,
clear `document_required`, record the rule's reason. -/
def exclApply (t : Transaction) (rule : ExclusionRule) : Transaction :=
  { t with excluded := true
           document_required := false
           exclusion_reason := some (reasonOrDefault rule.reason) }

/-- `apply_exclusion_rules(transaction, rules)` from
`app/services/exclusion/engine.py`: first match wins, the transaction is
returned updated together with the `bool` result. -/
def apply_exclusion_rules (re : String → String → Bool) (t : Transaction) :
    List ExclusionRule → Transaction × Bool
  | [] => (t, false)
  | rule :: rest =>
    if !rule.is_active then apply_exclusion_rules re t rest
    else
      match ruleValue rule t with
      | none => apply_exclusion_rules re t rest
      | some value =>
        if rule.matches re value then (exclApply t rule, true)
        else apply_exclusion_rules re t rest

/-- Whether a single rule would fire on `t`: it is active, selects a field,
and its predicate matches that field. -/
def ruleHits (re : String → String → Bool) (rule : ExclusionRule) (t : Transaction) : Bool :=
  rule.is_active &&
    (match ruleValue rule t with
     | none => false
     | some v => rule.matches re v)

/-- The first rule of the list that fires on `t`, if any. -/
def firstHit (re : String → String → Bool) (t : Transaction) :
    List ExclusionRule → Option ExclusionRule
  | [] => none
  | rule :: rest => if ruleHits re rule t then some rule else firstHit re t rest

/-- The `Contact` sub-object of a Xero `BankTransaction` record. -/
structure XeroContact where
  name : Option String
deriving DecidableEq

/-- A remote Xero `BankTransaction` record as consumed by
`upsert_xero_transactions`: every key read via `tx.get(...)` may be
absent (`none`). -/
structure XeroTx where
  bankTransactionID : Option String
  txType : Option String
  date : Option Int
  total : Option Int
  reference : Option String
  lineAmountTypes : Option String
  contact : Option XeroContact
  hasAttachments : Option Bool
deriving DecidableEq

/-- `tx.get("HasAttachments", False)`. -/
def hasAttach (tx : XeroTx) : Bool := tx.hasAttachments.getD false

/-- `(tx.get("Contact") or {}).get("Name")`. -/
def contactNameOf (tx : XeroTx) : Option String :=
  match tx.contact with
  | none => none
  | some c => c.name

/-- The truthy `BankTransactionID` of a record, if any: records whose id is
absent or empty are skipped by the sync loop. -/
def txKey (tx : XeroTx) : Option String :=
  match tx.bankTransactionID with
  | none => none
  | some x => if x = "" then none else some x

/-- Row predicate of the upsert lookup: same organization and same
`xero_transaction_id`. -/
def sameKey (oid xid : String) (t : Transaction) : Bool :=
  t.organization_id = oid && t.xero_transaction_id = xid

/-- Replace the first element satisfying `p` by its image under `f`
(SQLAlchemy `first()` + in-place mutation of that row). -/
def updateFirst (p : α → Bool) (f : α → α) : List α → List α
  | [] => []
  | a :: rest => if p a then f a :: rest else a :: updateFirst p f rest

/-- The freshly constructed `Transaction(...)` of the insert path of
`upsert_xero_transactions`, before the exclusion engine runs. -/
def insertBase (oid cid : String) (now : Int) (fresh : Nat) (xid : String)
    (tx : XeroTx) : Transaction :=
  { id := fresh
    organization_id := oid
    client_id := cid
    xero_transaction_id := xid
    xero_type := tx.txType
    date := tx.date
    amount := tx.total
    description := strOr tx.reference tx.lineAmountTypes
    supplier_name := contactNameOf tx
    document_required := !hasAttach tx
    document_received := hasAttach tx
    excluded := false
    exclusion_reason := none
    created_at := now
    updated_at := now }

/-- Insert path: construct the row, run it through the exclusion engine. -/
def insertRow (re : String → String → Bool) (rules : List ExclusionRule)
    (oid cid : String) (now : Int) (fresh : Nat) (xid : String) (tx : XeroTx) :
    Transaction :=
  (apply_exclusion_rules re (insertBase oid cid now fresh xid tx) rules).1

/-- The field overwrites of the update path of `upsert_xero_transactions`,
before the exclusion engine re-runs: mutable fields are overwritten,
`description` keeps the first truthy of `Reference`/prior value,
`document_required` is recomputed from `HasAttachments`, and
`document_received` is only ever raised to `true`. -/
def updateBase (now : Int) (tx : XeroTx) (existing : Transaction) : Transaction :=
  { existing with
    xero_type := tx.txType
    date := tx.date
    amount := tx.total
    description := strOr tx.reference existing.description
    supplier_name := contactNameOf tx
    document_required := !hasAttach tx
    document_received := if hasAttach tx then true else existing.document_received
    updated_at := now }

/-- Update path: overwrite the fields, re-run the exclusion engine. -/
def updateRow (re : String → String → Bool) (rules : List ExclusionRule)
    (now : Int) (tx : XeroTx) (existing : Transaction) : Transaction :=
  (apply_exclusion_rules re (updateBase now tx existing) rules).1

/-- One iteration of the sync loop: skip records without a truthy id, look
up the first row with the record's key, then insert (append) or update in
place.  The second state component is the fresh-id supply for
`uuid.uuid4()`. -/
def processOne (re : String → String → Bool) (rules : List ExclusionRule)
    (oid cid : String) (now : Int) (st : List Transaction × Nat) (tx : XeroTx) :
    List Transaction × Nat :=
  match txKey tx with
  | none => st
  | some xid =>
    match st.1.find? (sameKey oid xid) with
    | none => (st.1 ++ [insertRow re rules oid cid now st.2 xid tx], st.2 + 1)
    | some _ => (updateFirst (sameKey oid xid) (updateRow re rules now tx) st.1, st.2)

/-- The rule set loaded once per sync call: the organization's enabled
exclusion rules. -/
def enabledRules (ruleDb : List ExclusionRule) (oid : String) : List ExclusionRule :=
  ruleDb.filter (fun r => r.organization_id = oid && r.enabled)

/-- `upsert_xero_transactions(db, organization_id, client_id, xero_transactions)`
from `app/services/xero/transaction_sync.py`, acting on the transactions
table `db` (in row order) with fresh-id supply `fresh`. -/
def upsert_xero_transactions (re : String → String → Bool)
    (ruleDb : List ExclusionRule) (oid cid : String) (now : Int)
    (db : List Transaction) (txs : List XeroTx) (fresh : Nat) :
    List Transaction × Nat :=
  txs.foldl (processOne re (enabledRules ruleDb oid) oid cid now) (db, fresh)

/-- The `cryptography.fernet.Fernet` instance produced by `_get_fernet()` in
`app/services/xero/token_crypto.py`.  The key derivation is deterministic
from the fixed application secret, so the one instance is shared by
`encrypt_token` and `decrypt_token`; byte strings are modelled as `List
Char` and a failed integrity check (`InvalidToken`) is `none`. -/
structure Fernet where
  enc : List Char → List Char
  dec : List Char → Option (List Char)

/-- `encrypt_token(token)` from `token_crypto.py`:
`f.encrypt(token.encode()).decode()`. -/
def encrypt_token (f : Fernet) (token : String) : String :=
  String.mk (f.enc token.data)

/-- `decrypt_token(encrypted_token)` from `token_crypto.py`:
`f.decrypt(encrypted_token.encode()).decode()`; `none` models the raised
`InvalidToken`/`CryptoError`. -/
def decrypt_token (f : Fernet) (encrypted_token : String) : Option String :=
  (f.dec encrypted_token.data).map String.mk

/-- A row of `xero_connections` (`app/models/xero_connection.py`), with the
columns the token manager touches; instants are UTC seconds. -/
structure XeroConnection where
  organization_id : String
  xero_tenant_id : String
  access_token_encrypted : String
  refresh_token_encrypted : String
  expires_at : Int
  sync_status : String
deriving DecidableEq

/-- The provider's response to the refresh POST: status plus the JSON body
fields read on success. -/
structure TokenResponse where
  status_code : Nat
  access_token : String
  refresh_token : String
  expires_in : Int
deriving DecidableEq

/-- Result of `get_valid_access_token`: the returned token, or the raised
exception (`No Xero connection found`, a crypto failure, or `Failed to
refresh Xero token`). -/
inductive TMResult where
  | ok (token : String)
  | noConnection
  | cryptoError
  | refreshFailed
deriving DecidableEq

/-- Observable outcome of one `get_valid_access_token` call: its result,
the connection row as committed, and the refresh token sent to the
provider's token endpoint (`none` when no refresh POST was issued). -/
structure TMOut where
  result : TMResult
  conn : Option XeroConnection
  refreshRequest : Option String
deriving DecidableEq

/-- `get_valid_access_token(db, organization_id)` from
`app/services/xero/token_manager.py`.  `now` is `datetime.utcnow()` at the
expiry check, `now2` the one taken after the refresh response; `resp` is
the response the provider would give to this call's refresh POST; `conn?`
is the organization's connection row.  The 2-minute buffer is 120
seconds. -/
def get_valid_access_token (f : Fernet) (now now2 : Int) (resp : TokenResponse)
    (conn? : Option XeroConnection) : TMOut :=
  match conn? with
  | none => ⟨.noConnection, none, none⟩
  | some c =>
    if c.expires_at > now + 120 then
      match decrypt_token f c.access_token_encrypted with
      | none => ⟨.cryptoError, some c, none⟩
      | some tok => ⟨.ok tok, some c, none⟩
    else
      match decrypt_token f c.refresh_token_encrypted with
      | none => ⟨.cryptoError, some c, none⟩
      | some refresh_token =>
        if resp.status_code ≠ 200 then
          ⟨.refreshFailed, some { c with sync_status := "revoked" }, some refresh_token⟩
        else
          let c' : XeroConnection :=
            { c with
              access_token_encrypted := encrypt_token f resp.access_token
              refresh_token_encrypted := encrypt_token f resp.refresh_token
              expires_at := now2 + resp.expires_in
              sync_status := "connected" }
          match decrypt_token f c'.access_token_encrypted with
          | none => ⟨.cryptoError, some c', some refresh_token⟩
          | some tok => ⟨.ok tok, some c', some refresh_token⟩

/-- The refresh POSTs issued by two concurrent `get_valid_access_token`
calls for the same organization in the event-loop interleaving where both
coroutines pass the expiry check and reach their awaited HTTP call before
either commits: both read the same stored connection row `c`.  The
function has no lock (`first()` without `with_for_update`, no mutex), so
this interleaving is reachable. -/
def raceRefreshCalls (f : Fernet) (nowA nowA2 nowB nowB2 : Int)
    (respA respB : TokenResponse) (c : XeroConnection) : List String :=
  ((get_valid_access_token f nowA nowA2 respA (some c)).refreshRequest).toList ++
    ((get_valid_access_token f nowB nowB2 respB (some c)).refreshRequest).toList

/-- The business fields of a Transaction row: everything the spec calls a
business field (plus the identifying keys), excluding the surrogate `id`
and the `created_at`/`updated_at` timestamps. -/
structure BusFields where
  organization_id : String
  client_id : String
  xero_transaction_id : String
  xero_type : Option String
  date : Option Int
  amount : Option Int
  description : Option String
  supplier_name : Option String
  document_required : Bool
  document_received : Bool
  excluded : Bool
  exclusion_reason : Option String
deriving DecidableEq

/-- Project a row to its business fields. -/
def bus (t : Transaction) : BusFields :=
  ⟨t.organization_id, t.client_id, t.xero_transaction_id, t.xero_type, t.date,
   t.amount, t.description, t.supplier_name, t.document_required,
   t.document_received, t.excluded, t.exclusion_reason⟩

/-- Two transaction tables agree row-by-row on all business fields. -/
def BusRel (l1 l2 : List Transaction) : Prop :=
  List.Forall₂ (fun a b => bus a = bus b) l1 l2

/-- A regex evaluator that never matches (used for concrete scenarios with
no regex-typed rule). -/
def reNone : String → String → Bool := fun _ _ => false

/-- An identity Fernet: a lawful instance of the cipher contract, used to
instantiate concrete scenarios. -/
def idFernet : Fernet := ⟨fun b => b, fun b => some b⟩

/-- Sample row: an already-excluded transaction (excluded by an earlier
sync or rule set) with `document_required = false`. -/
def exT0 : Transaction :=
  ⟨0, "o", "c", "T1", none, none, none, some "alpha", some "S0",
   false, false, true, some "old", 0, 0⟩

/-- Sample row: a not-yet-excluded transaction with description `alpha`. -/
def exT1 : Transaction :=
  { exT0 with excluded := false, exclusion_reason := none, document_required := true }

/-- Sample remote record for `T1`: no `Reference`, supplier `ACME Ltd`,
no `HasAttachments` key. -/
def exTx1 : XeroTx :=
  ⟨some "T1", some "SPEND", some 1, some 100, none, none, some ⟨some "ACME Ltd"⟩, none⟩

/-- Sample remote record for `T1`: `Reference` `beta`, supplier `Other`. -/
def exTx2 : XeroTx :=
  ⟨some "T1", some "SPEND", some 1, some 100, some "beta", none, some ⟨some "Other"⟩, none⟩

/-- Description rule matching `alpha`, reason `RA`. -/
def exRuleA : ExclusionRule := ⟨"o", "description", "alpha", "contains", true, some "RA"⟩

/-- Supplier rule matching `acme`, reason `RB`. -/
def exRuleB : ExclusionRule := ⟨"o", "supplier_name", "acme", "contains", true, some "RB"⟩

/-- Sample connection whose access token expires at t=50 (stale at t=0
against the 120 s buffer); tokens encrypted with `idFernet`. -/
def exConn : XeroConnection := ⟨"org1", "ten1", "A1", "R", 50, "connected"⟩

/-- Sample successful refresh response. -/
def exResp : TokenResponse := ⟨200, "A2", "R2", 1800⟩

/-- Sample failed refresh response. -/
def exRespBad : TokenResponse := ⟨400, "", "", 0⟩
theorem engine_firstHit (re : String → String → Bool) (t : Transaction)
    (rules : List ExclusionRule) :
    apply_exclusion_rules re t rules =
      match firstHit re t rules with
      | some rule => (exclApply t rule, true)
      | none => (t, false) := by
  induction rules with
  | nil => rfl
  | cons rule rest ih =>
    simp only [apply_exclusion_rules, firstHit, ruleHits]
    by_cases hact : rule.is_active
    · simp only [hact, Bool.not_true, Bool.true_and]
      cases hval : ruleValue rule t with
      | none => simpa using ih
      | some v =>
        by_cases hm : rule.matches re v
        · simp [hm]
        · simpa [hm] using ih
    · simp only [Bool.not_eq_true] at hact
      simp [hact, ih]

theorem engine_fst (re : String → String → Bool) (t : Transaction)
    (rules : List ExclusionRule) :
    (apply_exclusion_rules re t rules).1 =
      match firstHit re t rules with
      | some rule => exclApply t rule
      | none => t := by
  rw [engine_firstHit]
  cases firstHit re t rules <;> rfl

theorem engine_snd (re : String → String → Bool) (t : Transaction)
    (rules : List ExclusionRule) :
    (apply_exclusion_rules re t rules).2 = (firstHit re t rules).isSome := by
  rw [engine_firstHit]
  cases firstHit re t rules <;> rfl

theorem firstHit_append (re : String → String → Bool) (t : Transaction)
    (l1 l2 : List ExclusionRule) (h : ∀ r ∈ l1, ruleHits re r t = false) :
    firstHit re t (l1 ++ l2) = firstHit re t l2 := by
  induction l1 with
  | nil => rfl
  | cons rule rest ih =>
    have hr : ruleHits re rule t = false := h rule (List.mem_cons_self _ _)
    simp only [List.cons_append, firstHit, hr, Bool.false_eq_true, if_false]
    exact ih (fun r hrm => h r (List.mem_cons_of_mem _ hrm))

/-- C5: with an ordered rule list in which `r1` is the first rule that fires
and a later enabled rule `r2` would also fire, the engine excludes the
transaction with `r1`'s reason (default `Auto-excluded`), reports `true`,
and its outcome is independent of everything after `r1` (no rule after the
first match is evaluated). -/
theorem C5_first_match_wins (re : String → String → Bool) (t : Transaction)
    (l1 l2 l3 : List ExclusionRule) (r1 r2 : ExclusionRule)
    (h1 : ruleHits re r1 t = true) (h2 : ruleHits re r2 t = true)
    (h0 : ∀ r ∈ l1, ruleHits re r t = false) :
    (apply_exclusion_rules re t (l1 ++ r1 :: (l2 ++ r2 :: l3))).2 = true ∧
    (apply_exclusion_rules re t (l1 ++ r1 :: (l2 ++ r2 :: l3))).1.excluded = true ∧
    (apply_exclusion_rules re t (l1 ++ r1 :: (l2 ++ r2 :: l3))).1.document_required = false ∧
    (apply_exclusion_rules re t (l1 ++ r1 :: (l2 ++ r2 :: l3))).1.exclusion_reason =
      some (reasonOrDefault r1.reason) ∧
    ∀ rest : List ExclusionRule,
      apply_exclusion_rules re t (l1 ++ r1 :: (l2 ++ r2 :: l3)) =
        apply_exclusion_rules re t (l1 ++ r1 :: rest) := by
  have hfh : ∀ rest : List ExclusionRule,
      firstHit re t (l1 ++ r1 :: rest) = some r1 := by
    intro rest
    rw [firstHit_append re t l1 _ h0]
    simp [firstHit, h1]
  have hmain : apply_exclusion_rules re t (l1 ++ r1 :: (l2 ++ r2 :: l3)) =
      (exclApply t r1, true) := by
    rw [engine_firstHit, hfh]
  refine ⟨by rw [hmain], by rw [hmain]; rfl, by rw [hmain]; rfl, by rw [hmain]; rfl, ?_⟩
  intro rest
  rw [hmain, engine_firstHit, hfh]

theorem C5_first_match_wins_witness :
    ruleHits reNone exRuleA exT1 = true ∧ ruleHits reNone exRuleA exT1 = true ∧
    ((apply_exclusion_rules reNone exT1 ([] ++ exRuleA :: ([] ++ exRuleA :: [exRuleB]))).2 = true ∧
     (apply_exclusion_rules reNone exT1 ([] ++ exRuleA :: ([] ++ exRuleA :: [exRuleB]))).1.excluded = true ∧
     (apply_exclusion_rules reNone exT1 ([] ++ exRuleA :: ([] ++ exRuleA :: [exRuleB]))).1.document_required = false ∧
     (apply_exclusion_rules reNone exT1 ([] ++ exRuleA :: ([] ++ exRuleA :: [exRuleB]))).1.exclusion_reason =
       some (reasonOrDefault exRuleA.reason) ∧
     ∀ rest : List ExclusionRule,
       apply_exclusion_rules reNone exT1 ([] ++ exRuleA :: ([] ++ exRuleA :: [exRuleB])) =
         apply_exclusion_rules reNone exT1 ([] ++ exRuleA :: rest)) :=
  ⟨by decide, by decide,
   C5_first_match_wins reNone exT1 [] [] [exRuleB] exRuleA exRuleA
     (by decide) (by decide) (by intro r hr; cases hr)⟩

theorem decrypt_encrypt (f : Fernet) (s : String)
    (hf : ∀ b, f.dec (f.enc b) = some b) :
    decrypt_token f (encrypt_token f s) = some s := by
  simp only [decrypt_token, encrypt_token, hf]
  rfl

/-- C6: for every plaintext string `s`, decrypting the encryption of `s`
returns `s` — given the authenticated-encryption contract of the
underlying Fernet instance (the external `cryptography` library), the
repository's `encrypt_token`/`decrypt_token` pair round-trips because both
derive the very same Fernet from the fixed application secret. -/
theorem C6_roundtrip (f : Fernet) (s : String)
    (hf : ∀ b, f.dec (f.enc b) = some b) :
    decrypt_token f (encrypt_token f s) = some s :=
  decrypt_encrypt f s hf

theorem C6_roundtrip_witness :
    decrypt_token idFernet (encrypt_token idFernet "s3cr3t-token") = some "s3cr3t-token" :=
  C6_roundtrip idFernet "s3cr3t-token" (fun _ => rfl)

/-- C7: when the stored token expires more than 2 minutes (120 s) from now,
`get_valid_access_token` returns the decrypted stored access token, sends
no refresh request to the provider, and commits the connection row
unchanged. -/
theorem C7_fresh_token_no_refresh (f : Fernet) (now now2 : Int)
    (resp : TokenResponse) (c : XeroConnection) (tok : String)
    (hfresh : c.expires_at > now + 120)
    (hdec : decrypt_token f c.access_token_encrypted = some tok) :
    get_valid_access_token f now now2 resp (some c) = ⟨.ok tok, some c, none⟩ := by
  simp [get_valid_access_token, hfresh, hdec]

theorem C7_fresh_token_no_refresh_witness :
    get_valid_access_token idFernet 0 0 exResp (some { exConn with expires_at := 10000 }) =
      ⟨.ok "A1", some { exConn with expires_at := 10000 }, none⟩ :=
  C7_fresh_token_no_refresh idFernet 0 0 exResp { exConn with expires_at := 10000 } "A1"
    (by decide) rfl

/-- C8: when the refresh exchange is attempted (connection present, token
within the 2-minute margin, stored refresh token decrypts) and the
provider answers with a non-200 status, the call fails with
`refreshFailed` and commits the row with `sync_status = "revoked"` — the
encrypted tokens and `expires_at` are untouched. -/
theorem C8_refresh_failure_revokes (f : Fernet) (now now2 : Int)
    (resp : TokenResponse) (c : XeroConnection) (rt : String)
    (hstale : ¬ c.expires_at > now + 120)
    (hdec : decrypt_token f c.refresh_token_encrypted = some rt)
    (hfail : resp.status_code ≠ 200) :
    get_valid_access_token f now now2 resp (some c) =
      ⟨.refreshFailed, some { c with sync_status := "revoked" }, some rt⟩ ∧
    ({ c with sync_status := "revoked" } : XeroConnection).access_token_encrypted =
      c.access_token_encrypted ∧
    ({ c with sync_status := "revoked" } : XeroConnection).refresh_token_encrypted =
      c.refresh_token_encrypted ∧
    ({ c with sync_status := "revoked" } : XeroConnection).expires_at = c.expires_at := by
  refine ⟨?_, rfl, rfl, rfl⟩
  simp [get_valid_access_token, hstale, hdec, hfail]

theorem C8_refresh_failure_revokes_witness :
    get_valid_access_token idFernet 0 0 exRespBad (some exConn) =
      ⟨.refreshFailed, some { exConn with sync_status := "revoked" }, some "R"⟩ ∧
    ({ exConn with sync_status := "revoked" } : XeroConnection).access_token_encrypted =
      exConn.access_token_encrypted ∧
    ({ exConn with sync_status := "revoked" } : XeroConnection).refresh_token_encrypted =
      exConn.refresh_token_encrypted ∧
    ({ exConn with sync_status := "revoked" } : XeroConnection).expires_at = exConn.expires_at :=
  C8_refresh_failure_revokes idFernet 0 0 exRespBad exConn "R" (by decide) rfl (by decide)

/-- C2: when the stored token is within the 2-minute margin and the
provider's refresh endpoint answers 200 with new tokens, the call returns
the new access token and commits the row with both tokens re-encrypted,
`expires_at` equal to the post-response current time plus `expires_in`,
and `sync_status = "connected"`. -/
theorem C2_refresh_success (f : Fernet) (now now2 : Int)
    (resp : TokenResponse) (c : XeroConnection)
    (hf : ∀ b, f.dec (f.enc b) = some b)
    (hstale : ¬ c.expires_at > now + 120)
    (hdec : ∃ rt, decrypt_token f c.refresh_token_encrypted = some rt)
    (hok : resp.status_code = 200) :
    (get_valid_access_token f now now2 resp (some c)).result = .ok resp.access_token ∧
    (get_valid_access_token f now now2 resp (some c)).conn =
      some { c with
             access_token_encrypted := encrypt_token f resp.access_token
             refresh_token_encrypted := encrypt_token f resp.refresh_token
             expires_at := now2 + resp.expires_in
             sync_status := "connected" } := by
  obtain ⟨rt, hrt⟩ := hdec
  have hdec2 : decrypt_token f (encrypt_token f resp.access_token) = some resp.access_token :=
    decrypt_encrypt f resp.access_token hf
  simp [get_valid_access_token, hstale, hrt, hok, hdec2]

theorem C2_refresh_success_witness :
    (get_valid_access_token idFernet 0 7 exResp (some exConn)).result = .ok "A2" ∧
    (get_valid_access_token idFernet 0 7 exResp (some exConn)).conn =
      some { exConn with
             access_token_encrypted := encrypt_token idFernet "A2"
             refresh_token_encrypted := encrypt_token idFernet "R2"
             expires_at := 7 + 1800
             sync_status := "connected" } :=
  C2_refresh_success idFernet 0 7 exResp exConn (fun _ => rfl) (by decide)
    ⟨"R", rfl⟩ rfl

/-- C9: the code's refresh sequence holds no per-organization lock, so in
the interleaving where two concurrent calls both pass the expiry check and
reach their awaited HTTP request before either commits, two refresh POSTs
are issued and both carry the same stored refresh token `R` — contradicting
the required "exactly one provider refresh call, never the same refresh
token twice". -/
theorem C9_double_refresh :
    raceRefreshCalls idFernet 0 0 0 0 exResp exResp exConn = ["R", "R"] ∧
    (raceRefreshCalls idFernet 0 0 0 0 exResp exResp exConn).length ≠ 1 := by
  constructor
  · decide
  · decide

theorem processOne_skip (re : String → String → Bool) (rules : List ExclusionRule)
    (oid cid : String) (now : Int) (st : List Transaction × Nat) (tx : XeroTx)
    (h : txKey tx = none) :
    processOne re rules oid cid now st tx = st := by
  unfold processOne
  rw [h]

theorem processOne_insert (re : String → String → Bool) (rules : List ExclusionRule)
    (oid cid : String) (now : Int) (st : List Transaction × Nat) (tx : XeroTx)
    (xid : String) (h : txKey tx = some xid)
    (hf : st.1.find? (sameKey oid xid) = none) :
    processOne re rules oid cid now st tx =
      (st.1 ++ [insertRow re rules oid cid now st.2 xid tx], st.2 + 1) := by
  simp only [processOne, h, hf]

theorem processOne_update (re : String → String → Bool) (rules : List ExclusionRule)
    (oid cid : String) (now : Int) (st : List Transaction × Nat) (tx : XeroTx)
    (xid : String) (x : Transaction) (h : txKey tx = some xid)
    (hf : st.1.find? (sameKey oid xid) = some x) :
    processOne re rules oid cid now st tx =
      (updateFirst (sameKey oid xid) (updateRow re rules now tx) st.1, st.2) := by
  simp only [processOne, h, hf]

theorem mem_updateFirst {α : Type} {p : α → Bool} {f : α → α} {l : List α} {t : α}
    (h : t ∈ updateFirst p f l) : t ∈ l ∨ ∃ x, x ∈ l ∧ t = f x := by
  induction l with
  | nil => cases h
  | cons a rest ih =>
    simp only [updateFirst] at h
    by_cases hp : p a
    · rw [if_pos hp] at h
      rcases List.mem_cons.mp h with h1 | h1
      · exact Or.inr ⟨a, List.mem_cons_self _ _, h1⟩
      · exact Or.inl (List.mem_cons_of_mem _ h1)
    · rw [if_neg hp] at h
      rcases List.mem_cons.mp h with h1 | h1
      · exact Or.inl (h1 ▸ List.mem_cons_self _ _)
      · rcases ih h1 with h2 | ⟨x, hx, ht⟩
        · exact Or.inl (List.mem_cons_of_mem _ h2)
        · exact Or.inr ⟨x, List.mem_cons_of_mem _ hx, ht⟩

theorem insertRow_excl_req (re : String → String → Bool) (rules : List ExclusionRule)
    (oid cid : String) (now : Int) (n : Nat) (xid : String) (tx : XeroTx)
    (h : (insertRow re rules oid cid now n xid tx).excluded = true) :
    (insertRow re rules oid cid now n xid tx).document_required = false := by
  revert h
  unfold insertRow
  rw [engine_fst]
  cases hfh : firstHit re (insertBase oid cid now n xid tx) rules with
  | none => intro hx; simp [insertBase] at hx
  | some r => intro _; rfl

theorem updateRow_excl_cases (re : String → String → Bool) (rules : List ExclusionRule)
    (now : Int) (tx : XeroTx) (x : Transaction) :
    (updateRow re rules now tx x).document_required = false ∨
    (updateRow re rules now tx x).excluded = x.excluded := by
  unfold updateRow
  rw [engine_fst]
  cases firstHit re (updateBase now tx x) rules
  · right; rfl
  · left; rfl

/-- C1 as stated is false on the code: starting from an already-excluded
row with `document_required = false`, a sync pass whose rule set no longer
matches the record recomputes `document_required = true` on the update
path while the engine re-run leaves `excluded = true`, so the result has
`excluded = true` and `document_required = true`. -/
theorem C1_counterexample :
    ∃ t ∈ (upsert_xero_transactions reNone [] "o" "c" 5 [exT0] [exTx1] 9).1,
      t.excluded = true ∧ t.document_required = true := by decide

/-- C1 amended: after any `upsert_xero_transactions` call, every row of the
table satisfies `excluded = true → document_required = false` unless it
was already present before the call (and left untouched), or it is the
update of a row that was already excluded (the re-run engine found no
match and `document_required` was recomputed from `HasAttachments`). -/
theorem C1_amended (re : String → String → Bool) (ruleDb : List ExclusionRule)
    (oid cid : String) (now : Int) (db : List Transaction) (txs : List XeroTx)
    (fresh : Nat) :
    ∀ t' ∈ (upsert_xero_transactions re ruleDb oid cid now db txs fresh).1,
      t'.excluded = true →
      t'.document_required = false ∨ t' ∈ db ∨
        ∃ x tx now', t' = updateRow re (enabledRules ruleDb oid) now' tx x ∧
          x.excluded = true := by
  set rules := enabledRules ruleDb oid with hrules
  suffices h : ∀ (l : List XeroTx) (st : List Transaction × Nat),
      (∀ t ∈ st.1, t.excluded = true →
        t.document_required = false ∨ t ∈ db ∨
          ∃ x tx now', t = updateRow re rules now' tx x ∧ x.excluded = true) →
      ∀ t ∈ (l.foldl (processOne re rules oid cid now) st).1, t.excluded = true →
        t.document_required = false ∨ t ∈ db ∨
          ∃ x tx now', t = updateRow re rules now' tx x ∧ x.excluded = true by
    exact h txs (db, fresh) (fun t ht _ => Or.inr (Or.inl ht))
  intro l
  induction l with
  | nil => intro st hst; exact hst
  | cons hd rest ih =>
    intro st hst
    simp only [List.foldl_cons]
    apply ih
    intro t ht
    cases htk : txKey hd with
    | none =>
      rw [processOne_skip re rules oid cid now st hd htk] at ht
      exact hst t ht
    | some xid =>
      cases hfind : st.1.find? (sameKey oid xid) with
      | none =>
        rw [processOne_insert re rules oid cid now st hd xid htk hfind] at ht
        rcases List.mem_append.mp ht with h1 | h1
        · exact hst t h1
        · have heq : t = insertRow re rules oid cid now st.2 xid hd := by
            simpa using h1
          intro hex
          exact Or.inl (heq ▸ insertRow_excl_req re rules oid cid now st.2 xid hd (heq ▸ hex))
      | some x0 =>
        rw [processOne_update re rules oid cid now st hd xid x0 htk hfind] at ht
        rcases mem_updateFirst ht with h1 | ⟨x, _, htx⟩
        · exact hst t h1
        · intro hex
          rcases updateRow_excl_cases re rules now hd x with hreq | hexcl
          · exact Or.inl (htx ▸ hreq)
          · refine Or.inr (Or.inr ⟨x, hd, now, htx, ?_⟩)
            rw [← hexcl, ← htx, hex]

theorem C1_amended_witness :
    (updateRow reNone (enabledRules [] "o") 5 exTx1 exT0)
        ∈ (upsert_xero_transactions reNone [] "o" "c" 5 [exT0] [exTx1] 9).1 ∧
    (updateRow reNone (enabledRules [] "o") 5 exTx1 exT0).excluded = true ∧
    ((updateRow reNone (enabledRules [] "o") 5 exTx1 exT0).document_required = false ∨
     (updateRow reNone (enabledRules [] "o") 5 exTx1 exT0) ∈ [exT0] ∨
     ∃ x tx now', (updateRow reNone (enabledRules [] "o") 5 exTx1 exT0) =
         updateRow reNone (enabledRules [] "o") now' tx x ∧ x.excluded = true) :=
  ⟨by decide, by decide,
   C1_amended reNone [] "o" "c" 5 [exT0] [exTx1] 9 _ (by decide) (by decide)⟩

theorem updateFirst_length {α : Type} (p : α → Bool) (f : α → α) :
    ∀ l : List α, (updateFirst p f l).length = l.length := by
  intro l
  induction l with
  | nil => rfl
  | cons a rest ih =>
    simp only [updateFirst]
    by_cases hp : p a
    · rw [if_pos hp]; rfl
    · rw [if_neg hp]
      simp [ih]

theorem updateFirst_getD {α : Type} (p : α → Bool) (f : α → α) (l : List α)
    (j : Nat) (d : α) :
    (updateFirst p f l).getD j d = l.getD j d ∨
    (updateFirst p f l).getD j d = f (l.getD j d) := by
  induction l generalizing j with
  | nil => exact Or.inl rfl
  | cons a rest ih =>
    simp only [updateFirst]
    by_cases hp : p a
    · rw [if_pos hp]
      cases j with
      | zero => exact Or.inr rfl
      | succ n => exact Or.inl rfl
    · rw [if_neg hp]
      cases j with
      | zero => exact Or.inl rfl
      | succ n => exact ih n

theorem engine_received (re : String → String → Bool) (t : Transaction)
    (rules : List ExclusionRule) :
    (apply_exclusion_rules re t rules).1.document_received = t.document_received := by
  rw [engine_fst]
  cases firstHit re t rules <;> rfl

theorem updateRow_received_mono (re : String → String → Bool)
    (rules : List ExclusionRule) (now : Int) (tx : XeroTx) (x : Transaction)
    (h : x.document_received = true) :
    (updateRow re rules now tx x).document_received = true := by
  unfold updateRow
  rw [engine_received]
  simp [updateBase, h]

/-- C4: sync never lowers `document_received`: a row whose
`document_received` is `true` (at position `j` of the table) still has it
`true` after any `upsert_xero_transactions` call, whatever the records
(including `HasAttachments = false` or a missing key). -/
theorem C4_received_monotone (re : String → String → Bool)
    (ruleDb : List ExclusionRule) (oid cid : String) (now : Int)
    (db : List Transaction) (txs : List XeroTx) (fresh : Nat) (j : Nat)
    (d0 : Transaction)
    (hj : j < db.length)
    (hrec : (db.getD j d0).document_received = true) :
    ((upsert_xero_transactions re ruleDb oid cid now db txs fresh).1.getD j d0).document_received
      = true := by
  set rules := enabledRules ruleDb oid with hrules
  suffices h : ∀ (l : List XeroTx) (st : List Transaction × Nat),
      j < st.1.length → (st.1.getD j d0).document_received = true →
      j < (l.foldl (processOne re rules oid cid now) st).1.length ∧
      ((l.foldl (processOne re rules oid cid now) st).1.getD j d0).document_received = true from
    (h txs (db, fresh) hj hrec).2
  intro l
  induction l with
  | nil => exact fun st h1 h2 => ⟨h1, h2⟩
  | cons hd rest ih =>
    intro st h1 h2
    simp only [List.foldl_cons]
    have hstep : j < (processOne re rules oid cid now st hd).1.length ∧
        ((processOne re rules oid cid now st hd).1.getD j d0).document_received = true := by
      cases htk : txKey hd with
      | none =>
        rw [processOne_skip re rules oid cid now st hd htk]
        exact ⟨h1, h2⟩
      | some xid =>
        cases hfind : st.1.find? (sameKey oid xid) with
        | none =>
          rw [processOne_insert re rules oid cid now st hd xid htk hfind]
          constructor
          · simp only [List.length_append, List.length_cons, List.length_nil]
            omega
          · rw [List.getD_append _ _ _ _ h1]
            exact h2
        | some x0 =>
          rw [processOne_update re rules oid cid now st hd xid x0 htk hfind]
          constructor
          · simpa [updateFirst_length] using h1
          · rcases updateFirst_getD (sameKey oid xid) (updateRow re rules now hd) st.1 j d0 with
              hsame | hupd
            · rw [hsame]; exact h2
            · rw [hupd]
              exact updateRow_received_mono re rules now hd _ h2
    exact ih _ hstep.1 hstep.2

theorem C4_received_monotone_witness :
    0 < ([{ exT0 with document_received := true }] : List Transaction).length ∧
    (([{ exT0 with document_received := true }] : List Transaction).getD 0 exT0).document_received
      = true ∧
    ((upsert_xero_transactions reNone [] "o" "c" 5
        [{ exT0 with document_received := true }] [exTx1] 9).1.getD 0 exT0).document_received
      = true :=
  ⟨by decide, by decide,
   C4_received_monotone reNone [] "o" "c" 5 [{ exT0 with document_received := true }]
     [exTx1] 9 0 exT0 (by decide) (by decide)⟩

/-- C10: a record without the `HasAttachments` key is treated as having no
attachments: when no enabled rule matches, a fresh insert gets
`document_required = true` and `document_received = false`, and an update
gets `document_required = true` while `document_received` keeps its prior
value. -/
theorem C10_missing_attachments_key (re : String → String → Bool)
    (ruleDb : List ExclusionRule) (oid cid : String) (now : Int) (fresh : Nat)
    (db : List Transaction) (tx : XeroTx) (xid : String)
    (hid : txKey tx = some xid)
    (hatt : tx.hasAttachments = none) :
    (db.find? (sameKey oid xid) = none →
      firstHit re (insertBase oid cid now fresh xid tx) (enabledRules ruleDb oid) = none →
      (upsert_xero_transactions re ruleDb oid cid now db [tx] fresh).1 =
        db ++ [insertBase oid cid now fresh xid tx] ∧
      (insertBase oid cid now fresh xid tx).document_required = true ∧
      (insertBase oid cid now fresh xid tx).document_received = false) ∧
    (∀ x, db.find? (sameKey oid xid) = some x →
      firstHit re (updateBase now tx x) (enabledRules ruleDb oid) = none →
      (upsert_xero_transactions re ruleDb oid cid now db [tx] fresh).1 =
        updateFirst (sameKey oid xid) (updateRow re (enabledRules ruleDb oid) now tx) db ∧
      (updateRow re (enabledRules ruleDb oid) now tx x).document_required = true ∧
      (updateRow re (enabledRules ruleDb oid) now tx x).document_received
        = x.document_received) := by
  set rules := enabledRules ruleDb oid with hrules
  constructor
  · intro hf hfh
    have hins : insertRow re rules oid cid now fresh xid tx =
        insertBase oid cid now fresh xid tx := by
      unfold insertRow
      rw [engine_fst, hfh]
    refine ⟨?_, ?_, ?_⟩
    · show ([tx].foldl (processOne re rules oid cid now) (db, fresh)).1 = _
      simp only [List.foldl_cons, List.foldl_nil]
      rw [processOne_insert re rules oid cid now (db, fresh) tx xid hid hf, hins]
    · simp [insertBase, hasAttach, hatt]
    · simp [insertBase, hasAttach, hatt]
  · intro x hf hfh
    have hupd : updateRow re rules now tx x = updateBase now tx x := by
      unfold updateRow
      rw [engine_fst, hfh]
    refine ⟨?_, ?_, ?_⟩
    · show ([tx].foldl (processOne re rules oid cid now) (db, fresh)).1 = _
      simp only [List.foldl_cons, List.foldl_nil]
      rw [processOne_update re rules oid cid now (db, fresh) tx xid x hid hf]
    · rw [hupd]; simp [updateBase, hasAttach, hatt]
    · rw [hupd]; simp [updateBase, hasAttach, hatt]

theorem C10_missing_attachments_key_witness :
    (([] : List Transaction).find? (sameKey "o" "T1") = none →
      firstHit reNone (insertBase "o" "c" 5 9 "T1" exTx1) (enabledRules [] "o") = none →
      (upsert_xero_transactions reNone [] "o" "c" 5 [] [exTx1] 9).1 =
        [] ++ [insertBase "o" "c" 5 9 "T1" exTx1] ∧
      (insertBase "o" "c" 5 9 "T1" exTx1).document_required = true ∧
      (insertBase "o" "c" 5 9 "T1" exTx1).document_received = false) ∧
    (∀ x, ([] : List Transaction).find? (sameKey "o" "T1") = some x →
      firstHit reNone (updateBase 5 exTx1 x) (enabledRules [] "o") = none →
      (upsert_xero_transactions reNone [] "o" "c" 5 [] [exTx1] 9).1 =
        updateFirst (sameKey "o" "T1") (updateRow reNone (enabledRules [] "o") 5 exTx1) [] ∧
      (updateRow reNone (enabledRules [] "o") 5 exTx1 x).document_required = true ∧
      (updateRow reNone (enabledRules [] "o") 5 exTx1 x).document_received
        = x.document_received) :=
  C10_missing_attachments_key reNone [] "o" "c" 5 9 [] exTx1 "T1" (by decide) rfl

/-- C3 as stated is false on the code: when the same batch contains two
records with the same `BankTransactionID` (here one without `Reference`
and one with `Reference = "beta"`), the first call and the second call
record different `exclusion_reason`s for the row (`RA` from the
description rule against the stale description on call one, `RB` from the
supplier rule on call two), so a business field differs between the two
calls. -/
theorem C3_counterexample :
    ¬ ((upsert_xero_transactions reNone [exRuleA, exRuleB] "o" "c" 6
          (upsert_xero_transactions reNone [exRuleA, exRuleB] "o" "c" 5
            [exT1] [exTx1, exTx2] 9).1 [exTx1, exTx2] 9).1.map bus =
        ((upsert_xero_transactions reNone [exRuleA, exRuleB] "o" "c" 5
            [exT1] [exTx1, exTx2] 9).1.map bus)) := by decide

theorem strOr_idem (a b : Option String) : strOr a (strOr a b) = strOr a b := by
  unfold strOr
  by_cases h : truthy a
  · simp [h]
  · simp [h]

theorem ruleHits_eq_of (re : String → String → Bool) (rule : ExclusionRule)
    {t u : Transaction} (hs : t.supplier_name = u.supplier_name)
    (hd : t.description = u.description) :
    ruleHits re rule t = ruleHits re rule u := by
  simp only [ruleHits, ruleValue]
  split_ifs <;> simp [hs, hd]

theorem firstHit_eq_of (re : String → String → Bool) (rules : List ExclusionRule)
    {t u : Transaction} (hs : t.supplier_name = u.supplier_name)
    (hd : t.description = u.description) :
    firstHit re t rules = firstHit re u rules := by
  induction rules with
  | nil => rfl
  | cons rule rest ih =>
    simp only [firstHit, ruleHits_eq_of re rule hs hd, ih]

theorem bus_updateRow_twice (re : String → String → Bool) (rules : List ExclusionRule)
    (now1 now2 : Int) (tx : XeroTx) (x : Transaction) :
    bus (updateRow re rules now2 tx (updateRow re rules now1 tx x)) =
      bus (updateRow re rules now1 tx x) := by
  cases hm : firstHit re (updateBase now1 tx x) rules with
  | none =>
    have hy1 : updateRow re rules now1 tx x = updateBase now1 tx x := by
      unfold updateRow; rw [engine_fst, hm]
    rw [hy1]
    have hfh : firstHit re (updateBase now2 tx (updateBase now1 tx x)) rules =
        firstHit re (updateBase now1 tx x) rules := by
      apply firstHit_eq_of
      · rfl
      · show strOr tx.reference (strOr tx.reference x.description) =
            strOr tx.reference x.description
        exact strOr_idem _ _
    unfold updateRow
    rw [engine_fst, hfh, hm]
    simp only [bus, updateBase, BusFields.mk.injEq, strOr_idem]
    by_cases hA : hasAttach tx <;> simp [hA]
  | some r =>
    have hy1 : updateRow re rules now1 tx x = exclApply (updateBase now1 tx x) r := by
      unfold updateRow; rw [engine_fst, hm]
    rw [hy1]
    have hfh : firstHit re (updateBase now2 tx (exclApply (updateBase now1 tx x) r)) rules =
        firstHit re (updateBase now1 tx x) rules := by
      apply firstHit_eq_of
      · rfl
      · show strOr tx.reference (strOr tx.reference x.description) =
            strOr tx.reference x.description
        exact strOr_idem _ _
    unfold updateRow
    rw [engine_fst, hfh, hm]
    simp only [bus, updateBase, exclApply, BusFields.mk.injEq, strOr_idem]
    by_cases hA : hasAttach tx <;> simp [hA]

theorem bus_updateRow_insertRow (re : String → String → Bool)
    (rules : List ExclusionRule) (oid cid : String) (now1 now2 : Int) (n : Nat)
    (xid : String) (tx : XeroTx) :
    bus (updateRow re rules now2 tx (insertRow re rules oid cid now1 n xid tx)) =
      bus (insertRow re rules oid cid now1 n xid tx) := by
  cases hm : firstHit re (insertBase oid cid now1 n xid tx) rules with
  | none =>
    have hy1 : insertRow re rules oid cid now1 n xid tx = insertBase oid cid now1 n xid tx := by
      unfold insertRow; rw [engine_fst, hm]
    rw [hy1]
    have hfh : firstHit re (updateBase now2 tx (insertBase oid cid now1 n xid tx)) rules =
        firstHit re (insertBase oid cid now1 n xid tx) rules := by
      apply firstHit_eq_of
      · rfl
      · show strOr tx.reference (strOr tx.reference tx.lineAmountTypes) =
            strOr tx.reference tx.lineAmountTypes
        exact strOr_idem _ _
    unfold updateRow
    rw [engine_fst, hfh, hm]
    simp only [bus, updateBase, insertBase, BusFields.mk.injEq, strOr_idem]
    by_cases hA : hasAttach tx <;> simp [hA]
  | some r =>
    have hy1 : insertRow re rules oid cid now1 n xid tx =
        exclApply (insertBase oid cid now1 n xid tx) r := by
      unfold insertRow; rw [engine_fst, hm]
    rw [hy1]
    have hfh : firstHit re
        (updateBase now2 tx (exclApply (insertBase oid cid now1 n xid tx) r)) rules =
        firstHit re (insertBase oid cid now1 n xid tx) rules := by
      apply firstHit_eq_of
      · rfl
      · show strOr tx.reference (strOr tx.reference tx.lineAmountTypes) =
            strOr tx.reference tx.lineAmountTypes
        exact strOr_idem _ _
    unfold updateRow
    rw [engine_fst, hfh, hm]
    simp only [bus, updateBase, insertBase, exclApply, BusFields.mk.injEq, strOr_idem]
    by_cases hA : hasAttach tx <;> simp [hA]

theorem bus_updateRow_congr (re : String → String → Bool) (rules : List ExclusionRule)
    (now now' : Int) (tx : XeroTx) {x y : Transaction} (h : bus x = bus y) :
    bus (updateRow re rules now tx x) = bus (updateRow re rules now' tx y) := by
  have h' := h
  simp only [bus, BusFields.mk.injEq] at h'
  obtain ⟨h1, h2, h3, h4, h5, h6, h7, h8, h9, h10, h11, h12⟩ := h'
  have hfh : firstHit re (updateBase now tx x) rules =
      firstHit re (updateBase now' tx y) rules := by
    apply firstHit_eq_of
    · rfl
    · show strOr tx.reference x.description = strOr tx.reference y.description
      rw [h7]
  unfold updateRow
  rw [engine_fst, engine_fst, hfh]
  cases firstHit re (updateBase now' tx y) rules with
  | none =>
    simp [bus, updateBase, h1, h2, h3, h7, h10, h11, h12]
  | some r =>
    simp [bus, updateBase, exclApply, h1, h2, h3, h7, h10, h11, h12]

theorem find?_append_sing_none {α : Type} (p : α → Bool) (l : List α) (a : α)
    (h : p a = false) : (l ++ [a]).find? p = l.find? p := by
  induction l with
  | nil => simp [List.find?, h]
  | cons b rest ih =>
    cases hb : p b <;> simp [List.find?, hb, ih]

theorem find?_append_sing_some {α : Type} (p : α → Bool) (l : List α) (a : α)
    (hl : l.find? p = none) (h : p a = true) : (l ++ [a]).find? p = some a := by
  induction l with
  | nil => simp [List.find?, h]
  | cons b rest ih =>
    cases hb : p b
    · simp only [List.find?_cons, hb] at hl
      simp [List.find?, hb, ih hl]
    · simp [List.find?_cons, hb] at hl

theorem find?_updateFirst_same {α : Type} (p : α → Bool) (f : α → α)
    (hp : ∀ b, p b = true → p (f b) = true) :
    ∀ l : List α, (updateFirst p f l).find? p = (l.find? p).map f := by
  intro l
  induction l with
  | nil => rfl
  | cons a rest ih =>
    cases ha : p a
    · simp only [updateFirst, ha, Bool.false_eq_true, if_false]
      simp [List.find?_cons, ha, ih]
    · simp only [updateFirst, ha, if_true]
      simp [List.find?_cons, ha, hp a ha]

theorem find?_updateFirst_other {α : Type} (p q : α → Bool) (f : α → α)
    (hpq : ∀ b, ¬(p b = true ∧ q b = true)) (hf : ∀ b, p (f b) = p b) :
    ∀ l : List α, (updateFirst q f l).find? p = l.find? p := by
  intro l
  induction l with
  | nil => rfl
  | cons a rest ih =>
    cases hqa : q a
    · simp only [updateFirst, hqa, Bool.false_eq_true, if_false]
      cases hpa : p a <;> simp [List.find?_cons, hpa, ih]
    · have hpa : p a = false := by
        cases hpa : p a
        · rfl
        · exact absurd ⟨hpa, hqa⟩ (hpq a)
      simp only [updateFirst, hqa, if_true]
      simp [List.find?_cons, hpa, hf a, hpa]

theorem sameKey_updateRow (oid k : String) (re : String → String → Bool)
    (rules : List ExclusionRule) (now : Int) (tx : XeroTx) (x : Transaction) :
    sameKey oid k (updateRow re rules now tx x) = sameKey oid k x := by
  unfold updateRow
  rw [engine_fst]
  cases firstHit re (updateBase now tx x) rules <;> rfl

theorem sameKey_insertRow (oid k : String) (re : String → String → Bool)
    (rules : List ExclusionRule) (oid' cid : String) (now : Int) (n : Nat)
    (xid : String) (tx : XeroTx) :
    sameKey oid k (insertRow re rules oid' cid now n xid tx) =
      (decide (oid' = oid) && decide (xid = k)) := by
  unfold insertRow
  rw [engine_fst]
  cases firstHit re (insertBase oid' cid now n xid tx) rules <;> rfl

theorem sameKey_both {oid k k' : String} {b : Transaction}
    (h1 : sameKey oid k b = true) (h2 : sameKey oid k' b = true) : k = k' := by
  simp only [sameKey, Bool.and_eq_true, decide_eq_true_eq] at h1 h2
  rw [← h1.2, ← h2.2]

theorem processOne_find?_frame (re : String → String → Bool)
    (rules : List ExclusionRule) (oid cid : String) (now : Int)
    (st : List Transaction × Nat) (tx : XeroTx) (k : String)
    (h : txKey tx ≠ some k) :
    (processOne re rules oid cid now st tx).1.find? (sameKey oid k) =
      st.1.find? (sameKey oid k) := by
  cases htk : txKey tx with
  | none => rw [processOne_skip re rules oid cid now st tx htk]
  | some k' =>
    have hkk : k' ≠ k := fun he => h (he ▸ htk)
    cases hfind : st.1.find? (sameKey oid k') with
    | none =>
      rw [processOne_insert re rules oid cid now st tx k' htk hfind]
      apply find?_append_sing_none
      rw [sameKey_insertRow]
      simp [hkk]
    | some x =>
      rw [processOne_update re rules oid cid now st tx k' x htk hfind]
      apply find?_updateFirst_other
      · intro b hb
        exact hkk (sameKey_both hb.2 hb.1)
      · intro b
        exact sameKey_updateRow oid k re rules now tx b

theorem processOne_find?_own (re : String → String → Bool)
    (rules : List ExclusionRule) (oid cid : String) (now : Int)
    (st : List Transaction × Nat) (tx : XeroTx) (k : String)
    (h : txKey tx = some k) :
    (processOne re rules oid cid now st tx).1.find? (sameKey oid k) =
      some (match st.1.find? (sameKey oid k) with
            | some x => updateRow re rules now tx x
            | none => insertRow re rules oid cid now st.2 k tx) := by
  cases hfind : st.1.find? (sameKey oid k) with
  | none =>
    rw [processOne_insert re rules oid cid now st tx k h hfind]
    apply find?_append_sing_some _ _ _ hfind
    rw [sameKey_insertRow]
    simp
  | some x =>
    rw [processOne_update re rules oid cid now st tx k x h hfind]
    rw [find?_updateFirst_same _ _ (fun b hb => by
      rw [sameKey_updateRow]; exact hb) st.1, hfind]
    rfl

theorem foldl_find?_frame (re : String → String → Bool)
    (rules : List ExclusionRule) (oid cid : String) (now : Int) (k : String) :
    ∀ (l : List XeroTx) (st : List Transaction × Nat),
      (∀ tx ∈ l, txKey tx ≠ some k) →
      (l.foldl (processOne re rules oid cid now) st).1.find? (sameKey oid k) =
        st.1.find? (sameKey oid k) := by
  intro l
  induction l with
  | nil => intro st _; rfl
  | cons hd rest ih =>
    intro st hl
    simp only [List.foldl_cons]
    rw [ih _ (fun tx htx => hl tx (List.mem_cons_of_mem _ htx))]
    exact processOne_find?_frame re rules oid cid now st hd k
      (hl hd (List.mem_cons_self _ _))

theorem run1_char (re : String → String → Bool) (rules : List ExclusionRule)
    (oid cid : String) (now : Int) :
    ∀ (l : List XeroTx) (st : List Transaction × Nat) (tx : XeroTx) (k : String),
      (l.filterMap txKey).Nodup → tx ∈ l → txKey tx = some k →
      ∃ r, (l.foldl (processOne re rules oid cid now) st).1.find? (sameKey oid k) = some r ∧
        ((∃ x, st.1.find? (sameKey oid k) = some x ∧ r = updateRow re rules now tx x) ∨
         (st.1.find? (sameKey oid k) = none ∧
          ∃ n, r = insertRow re rules oid cid now n k tx)) := by
  intro l
  induction l with
  | nil => intro st tx k _ hmem; cases hmem
  | cons hd rest ih =>
    intro st tx k hnd hmem htk
    simp only [List.foldl_cons]
    rcases List.mem_cons.mp hmem with heq | hmem'
    · subst heq
      have hfm : (tx :: rest).filterMap txKey = k :: rest.filterMap txKey :=
        List.filterMap_cons_some htk
      rw [hfm] at hnd
      have hknotin : k ∉ rest.filterMap txKey := (List.nodup_cons.mp hnd).1
      have hrest : ∀ tx' ∈ rest, txKey tx' ≠ some k := by
        intro tx' htx' he
        exact hknotin (List.mem_filterMap.mpr ⟨tx', htx', he⟩)
      rw [foldl_find?_frame re rules oid cid now k rest _ hrest]
      rw [processOne_find?_own re rules oid cid now st tx k htk]
      cases hf0 : st.1.find? (sameKey oid k) with
      | none => exact ⟨_, rfl, Or.inr ⟨rfl, st.2, rfl⟩⟩
      | some x => exact ⟨_, rfl, Or.inl ⟨x, rfl, rfl⟩⟩
    · have hndrest : (rest.filterMap txKey).Nodup := by
        cases hhd : txKey hd with
        | none => rwa [List.filterMap_cons_none hhd] at hnd
        | some kh =>
          rw [List.filterMap_cons_some hhd] at hnd
          exact (List.nodup_cons.mp hnd).2
      have hframe : txKey hd ≠ some k := by
        intro he
        rw [List.filterMap_cons_some he] at hnd
        exact (List.nodup_cons.mp hnd).1
          (List.mem_filterMap.mpr ⟨tx, hmem', htk⟩)
      obtain ⟨r, hfind, hshape⟩ :=
        ih (processOne re rules oid cid now st hd) tx k hndrest hmem' htk
      rw [processOne_find?_frame re rules oid cid now st hd k hframe] at hshape
      exact ⟨r, hfind, hshape⟩

theorem busRel_refl (l : List Transaction) : BusRel l l :=
  List.forall₂_same.mpr (fun _ _ => rfl)

theorem busRel_map {l1 l2 : List Transaction} (h : BusRel l1 l2) :
    l1.map bus = l2.map bus := by
  induction h with
  | nil => rfl
  | cons hab ht ih => simp only [List.map_cons, hab, ih]

theorem sameKey_of_busEq {a b : Transaction} (h : bus a = bus b) (oid k : String) :
    sameKey oid k a = sameKey oid k b := by
  simp only [bus, BusFields.mk.injEq] at h
  unfold sameKey
  rw [h.1, h.2.2.1]

theorem find?_busrel {l1 l2 : List Transaction} (h : BusRel l1 l2) (oid k : String) :
    (l1.find? (sameKey oid k) = none ∧ l2.find? (sameKey oid k) = none) ∨
    ∃ a b, l1.find? (sameKey oid k) = some a ∧ l2.find? (sameKey oid k) = some b ∧
      bus a = bus b := by
  induction h with
  | nil => exact Or.inl ⟨rfl, rfl⟩
  | @cons a b l1' l2' hab ht ih =>
    cases hp : sameKey oid k a with
    | true =>
      have hpb : sameKey oid k b = true := by rw [← sameKey_of_busEq hab]; exact hp
      exact Or.inr ⟨a, b, by simp [List.find?_cons, hp], by simp [List.find?_cons, hpb], hab⟩
    | false =>
      have hpb : sameKey oid k b = false := by rw [← sameKey_of_busEq hab]; exact hp
      rcases ih with ⟨hn1, hn2⟩ | ⟨a', b', hf1, hf2, hab'⟩
      · exact Or.inl ⟨by simp [List.find?_cons, hp, hn1], by simp [List.find?_cons, hpb, hn2]⟩
      · exact Or.inr ⟨a', b', by simp [List.find?_cons, hp, hf1],
          by simp [List.find?_cons, hpb, hf2], hab'⟩

theorem updateFirst_busrel {l1 l2 : List Transaction} (h : BusRel l1 l2)
    (oid k : String) (f : Transaction → Transaction)
    (hstep : ∀ a b, bus a = bus b → sameKey oid k a = true →
      l2.find? (sameKey oid k) = some b → bus (f a) = bus b) :
    BusRel (updateFirst (sameKey oid k) f l1) l2 := by
  induction h with
  | nil => exact List.Forall₂.nil
  | @cons a b l1' l2' hab ht ih =>
    simp only [updateFirst]
    cases hp : sameKey oid k a with
    | true =>
      rw [if_pos rfl]
      have hpb : sameKey oid k b = true := by rw [← sameKey_of_busEq hab]; exact hp
      have hfb : (b :: l2').find? (sameKey oid k) = some b := by
        simp [List.find?_cons, hpb]
      exact List.Forall₂.cons (hstep a b hab hp hfb) ht
    | false =>
      rw [if_neg (by simp)]
      refine List.Forall₂.cons hab (ih ?_)
      intro a' b' hab' hp' hfb'
      apply hstep a' b' hab' hp'
      have hpb : sameKey oid k b = false := by rw [← sameKey_of_busEq hab]; exact hp
      simp [List.find?_cons, hpb, hfb']

theorem run2_fold (re : String → String → Bool) (rules : List ExclusionRule)
    (oid cid : String) (now2 : Int) (db1 : List Transaction) :
    ∀ (l : List XeroTx) (B : List Transaction) (fB : Nat),
      BusRel B db1 →
      (∀ tx ∈ l, ∀ k, txKey tx = some k →
        ∃ r, db1.find? (sameKey oid k) = some r ∧
          bus (updateRow re rules now2 tx r) = bus r) →
      BusRel (l.foldl (processOne re rules oid cid now2) (B, fB)).1 db1 := by
  intro l
  induction l with
  | nil => intro B fB hB _; exact hB
  | cons hd rest ih =>
    intro B fB hB hshape
    simp only [List.foldl_cons]
    have hshape' : ∀ tx ∈ rest, ∀ k, txKey tx = some k →
        ∃ r, db1.find? (sameKey oid k) = some r ∧
          bus (updateRow re rules now2 tx r) = bus r :=
      fun tx htx => hshape tx (List.mem_cons_of_mem _ htx)
    cases htk : txKey hd with
    | none =>
      rw [processOne_skip re rules oid cid now2 (B, fB) hd htk]
      exact ih B fB hB hshape'
    | some k =>
      obtain ⟨r, hrfind, hrstab⟩ := hshape hd (List.mem_cons_self _ _) k htk
      rcases find?_busrel hB oid k with ⟨hn1, hn2⟩ | ⟨a, b, hf1, hf2, hab⟩
      · rw [hn2] at hrfind; cases hrfind
      · have hbr : b = r := by
          rw [hf2] at hrfind
          exact Option.some.inj hrfind
        subst hbr
        rw [processOne_update re rules oid cid now2 (B, fB) hd k a htk hf1]
        apply ih _ fB ?_ hshape'
        apply updateFirst_busrel hB oid k
        intro a' b' hab' hp' hfb'
        have hbr' : b' = b := by
          rw [hfb'] at hrfind
          exact Option.some.inj hrfind
        subst hbr'
        calc bus (updateRow re rules now2 hd a')
            = bus (updateRow re rules now2 hd b') := bus_updateRow_congr re rules now2 now2 hd hab'
          _ = bus b' := hrstab

/-- C3 amended: with every truthy `BankTransactionID` occurring at most
once in the record list (remote records are unique per id), running
`upsert_xero_transactions` a second time with the identical record list and
the unchanged rule set leaves every row's business fields (keys, type,
date, amount, description, supplier, document flags, exclusion state and
reason) unchanged — in particular no duplicate row is created. -/
theorem C3_amended (re : String → String → Bool) (ruleDb : List ExclusionRule)
    (oid cid : String) (now1 now2 : Int) (db : List Transaction)
    (txs : List XeroTx) (f1 f2 : Nat)
    (hnd : (txs.filterMap txKey).Nodup) :
    ((upsert_xero_transactions re ruleDb oid cid now2
        (upsert_xero_transactions re ruleDb oid cid now1 db txs f1).1 txs f2).1).map bus =
      ((upsert_xero_transactions re ruleDb oid cid now1 db txs f1).1).map bus := by
  apply busRel_map
  show BusRel
    ((txs.foldl (processOne re (enabledRules ruleDb oid) oid cid now2)
      ((upsert_xero_transactions re ruleDb oid cid now1 db txs f1).1, f2)).1)
    ((upsert_xero_transactions re ruleDb oid cid now1 db txs f1).1)
  apply run2_fold
  · exact busRel_refl _
  · intro tx htx k htk
    obtain ⟨r, hfind, hshape⟩ :=
      run1_char re (enabledRules ruleDb oid) oid cid now1 txs (db, f1) tx k hnd htx htk
    refine ⟨r, hfind, ?_⟩
    rcases hshape with ⟨x, _, hr⟩ | ⟨_, n, hr⟩
    · rw [hr]
      exact bus_updateRow_twice re (enabledRules ruleDb oid) now1 now2 tx x
    · rw [hr]
      exact bus_updateRow_insertRow re (enabledRules ruleDb oid) oid cid now1 now2 n k tx

theorem C3_amended_witness :
    (([exTx2] : List XeroTx).filterMap txKey).Nodup ∧
    ((upsert_xero_transactions reNone [exRuleA, exRuleB] "o" "c" 6
        (upsert_xero_transactions reNone [exRuleA, exRuleB] "o" "c" 5
          [exT1] [exTx2] 9).1 [exTx2] 11).1).map bus =
      ((upsert_xero_transactions reNone [exRuleA, exRuleB] "o" "c" 5
          [exT1] [exTx2] 9).1).map bus :=
  ⟨by decide,
   C3_amended reNone [exRuleA, exRuleB] "o" "c" 5 6 [exT1] [exTx2] 9 11 (by decide)⟩
